import Mathlib

/-!
Shallow embedding of `src/t_lib/include/t_lib/tensor.hpp` (namespace `tensor_lib`).

Modelling conventions:
- C++ `int` values are modelled as unbounded `Int`; signed overflow is undefined
  behaviour in C++, so theorems about constructed tensors carry the hypothesis
  that the total element count stays below `2^31` (the defined domain of `int`).
- C++ `/` on `int` truncates toward zero, which is `Int.tdiv`.
- `size_t` is modelled as `Nat` together with the (C++-defined) modular
  conversions `int → size_t` (mod `2^64`) and `size_t → int` (two's complement
  mod `2^32`), which the source performs implicitly in `Tensor::initialize`
  and in the `flat_index` accumulation of `Tensor::at`.
- Exceptions are modelled by `Except TensorError`; `std::vector` reads through
  `operator[]` that would be out of bounds (undefined behaviour in C++) are
  modelled by `Option.none` in the payload of `Tensor.at'`.
- The `print_mode == 'Y'` branch of `Tensor::at` writes the selected element to
  stdout; the embedding returns that diagnostic channel as a `List T` next to
  the result value.
-/

set_option autoImplicit false

namespace tensor_lib

/-- The error kinds of §7 of the design: the source raises them as
`std::logic_error` ("Shape vector should not be empty" = `invalidShape`,
"Input data size does not match tensor shape" = `shapeMismatch`),
`std::invalid_argument` (= `rankMismatch`) and `std::out_of_range`
(= `indexOutOfRange`). -/
inductive TensorError : Type
  | invalidShape
  | shapeMismatch
  | rankMismatch
  | indexOutOfRange
deriving DecidableEq, Repr

/-- Width of `size_t` (64-bit). -/
def SIZE_T_MOD : Nat := 2 ^ 64

/-- Width of `int` (32-bit). -/
def INT_MOD : Nat := 2 ^ 32

/-- Conversion C++ `int → size_t`: reduction modulo `2^64` (defined behaviour). -/
def int_to_size_t (i : Int) : Nat := (i % (SIZE_T_MOD : Int)).toNat

/-- Conversion C++ `size_t → int`: two's-complement reduction modulo `2^32`. -/
def size_t_to_int (n : Nat) : Int :=
  if n % INT_MOD < 2 ^ 31 then ((n % INT_MOD : Nat) : Int)
  else ((n % INT_MOD : Nat) : Int) - (INT_MOD : Int)

/-- Embedding of `tensor_lib::calculate_total`: throws when the shape is empty, otherwise
starts from `shape[0]` and multiplies the remaining entries in order. -/
def calculate_total (shape : List Int) : Except TensorError Int :=
  match shape with
  | [] => .error .invalidShape
  | s0 :: rest => .ok (rest.foldl (· * ·) s0)

/-- The loop of `tensor_lib::calculate_stride`: for each dimension push
`total / dim` (truncating `int` division) and replace `total` by that
quotient. -/
def strideLoop : List Int → Int → List Int
  | [], _ => []
  | d :: rest, total => (total.tdiv d) :: strideLoop rest (total.tdiv d)

/-- Embedding of `tensor_lib::calculate_stride(shape, total)`: throws when the shape is
empty; when `total == 0` (the defaulted argument) recomputes it via
`calculate_total`; then runs the division loop. -/
def calculate_stride (shape : List Int) (total : Int) : Except TensorError (List Int) := do
  match shape with
  | [] => throw .invalidShape
  | s0 :: rest =>
    let t ← if total = 0 then calculate_total (s0 :: rest) else pure total
    pure (strideLoop (s0 :: rest) t)

/-- Embedding of `tensor_lib::Tensor<T>`: shape, derived stride table, flat element buffer,
and the cached `size_t` element count. -/
structure Tensor (T : Type) : Type where
  shape : List Int
  stride : List Int
  elements : List T
  total_elements : Nat
deriving Repr, DecidableEq

/-- Embedding of `Tensor<T>::initialize(input_shape, input_elements)` (also the body of the
two-argument constructor): computes the total (stored into the `size_t` member,
hence the modular conversion), computes the strides from that stored value
(passed back through an `int` parameter, hence the second conversion), then
either default-fills the buffer (`elements.resize`), rejects a buffer of the
wrong length, or adopts the supplied buffer. -/
def Tensor.init {T : Type} [Inhabited T] (input_shape : List Int)
    (input_elements : List T) : Except TensorError (Tensor T) :=
  match calculate_total input_shape with
  | .error e => .error e
  | .ok total =>
    let total_elements : Nat := int_to_size_t total
    match calculate_stride input_shape (size_t_to_int total_elements) with
    | .error e => .error e
    | .ok stride =>
      if input_elements.isEmpty then
        .ok ⟨input_shape, stride, List.replicate total_elements default, total_elements⟩
      else if input_elements.length ≠ total_elements then
        .error .shapeMismatch
      else
        .ok ⟨input_shape, stride, input_elements, total_elements⟩

/-- The validation-and-accumulation loop of `Tensor<T>::at`: for each `i`,
reject when `position[i] >= shape[i]` (the source performs no lower-bound
check), else add `position[i] * stride[i]` — an `int` product — into the
`size_t` accumulator `flat_index`.  The final catch-all arm is unreachable when
`position` and `stride` have the length of `shape`, which `at` checks
resp. construction guarantees. -/
def atLoop : List Int → List Int → List Int → Nat → Except TensorError Nat
  | [], _, _, flat => .ok flat
  | d :: shapeRest, st :: strideRest, p :: posRest, flat =>
    if p ≥ d then .error .indexOutOfRange
    else atLoop shapeRest strideRest posRest ((flat + int_to_size_t (p * st)) % SIZE_T_MOD)
  | _ :: _, _, _, flat => .ok flat

/-- Embedding of `Tensor<T>::at(position, print_mode)`: rank check, bounds-and-accumulate
loop, optional echo of the element to stdout, then the buffer read
`elements[flat_index]`.  The first component is the returned value (`none`
marking an out-of-bounds `operator[]` read, undefined behaviour in C++); the
second is the list of elements printed to the diagnostic channel. -/
def Tensor.at' {T : Type} (t : Tensor T) (position : List Int) (print_mode : Char) :
    (Except TensorError (Option T)) × List T :=
  if position.length ≠ t.shape.length then (.error .rankMismatch, [])
  else
    match atLoop t.shape t.stride position 0 with
    | .error e => (.error e, [])
    | .ok flat =>
      match t.elements.get? flat with
      | none => (.ok none, [])
      | some x => (.ok (some x), if print_mode = 'Y' then [x] else [])

/-- Embedding of `Tensor<T>::element_wise_apply(operation)`: maps `operation` over the
buffer in order and builds a fresh tensor from the same shape through the
validating constructor `Tensor(shape, new_elements)`. -/
def Tensor.element_wise_apply {T : Type} [Inhabited T] (t : Tensor T)
    (operation : T → T) : Except TensorError (Tensor T) :=
  Tensor.init t.shape (t.elements.map operation)

/-! Section: Derived layout descriptions (specification side) -/

/-- Row-major strides: entry `i` is the product of the dimensions after `i`. -/
def suffixProds : List Int → List Int
  | [] => []
  | _ :: rest => rest.prod :: suffixProds rest

/-- The flat index `Σ position[i] * stride[i]` as an unbounded integer. -/
def flatZip (position stride : List Int) : Int :=
  (List.zipWith (· * ·) position stride).sum

/-- Predicate: `position` is a valid coordinate for `shape`: componentwise
`0 ≤ position[i] < shape[i]` (and equal lengths). -/
def ValidCoord (shape position : List Int) : Prop :=
  List.Forall₂ (fun p s => 0 ≤ p ∧ p < s) position shape

/-- All coordinates of `shape`, enumerated in row-major order (the last
dimension varies fastest). -/
def coordEnum : List Int → List (List Int)
  | [] => [[]]
  | d :: rest => (List.range d.toNat).flatMap
      (fun i => (coordEnum rest).map (fun c => (i : Int) :: c))

/-! Section: Helper lemmas about the layout calculator -/

theorem foldl_mul_eq_prod : ∀ (l : List Int) (a : Int), l.foldl (· * ·) a = a * l.prod
  | [], a => by simp
  | x :: xs, a => by
    rw [List.foldl_cons, foldl_mul_eq_prod xs (a * x), List.prod_cons]
    ring

theorem calculate_total_ok : ∀ (shape : List Int), shape ≠ [] →
    calculate_total shape = .ok shape.prod
  | [], h => absurd rfl h
  | s0 :: rest, _ => by
    show Except.ok (rest.foldl (· * ·) s0) = _
    rw [foldl_mul_eq_prod rest s0, List.prod_cons]

theorem suffixProds_length : ∀ (l : List Int), (suffixProds l).length = l.length
  | [] => rfl
  | _ :: rest => by simp [suffixProds, suffixProds_length rest]

theorem strideLoop_suffix : ∀ (l : List Int), (∀ d ∈ l, 0 < d) →
    strideLoop l l.prod = suffixProds l
  | [], _ => rfl
  | d :: rest, hpos => by
    have hd : d ≠ 0 := ne_of_gt (hpos d (List.mem_cons_self d rest))
    have h1 : (List.prod (d :: rest)).tdiv d = rest.prod := by
      rw [List.prod_cons]
      exact Int.mul_tdiv_cancel_left _ hd
    show (List.prod (d :: rest)).tdiv d
        :: strideLoop rest ((List.prod (d :: rest)).tdiv d) = _
    rw [h1, strideLoop_suffix rest (fun x hx => hpos x (List.mem_cons_of_mem d hx))]
    rfl

theorem calculate_stride_of_ne {shape : List Int} (total : Int) (hne : shape ≠ [])
    (ht : total ≠ 0) : calculate_stride shape total = .ok (strideLoop shape total) := by
  cases shape with
  | nil => exact absurd rfl hne
  | cons s0 rest =>
    simp only [calculate_stride, if_neg ht]
    rfl

theorem calculate_stride_prod {shape : List Int} (hne : shape ≠ [])
    (hpos : ∀ d ∈ shape, 0 < d) :
    calculate_stride shape shape.prod = .ok (suffixProds shape) := by
  have hp : (0 : Int) < shape.prod := List.prod_pos hpos
  rw [calculate_stride_of_ne _ hne (ne_of_gt hp), strideLoop_suffix shape hpos]

theorem calculate_stride_default {shape : List Int} (hne : shape ≠ [])
    (hpos : ∀ d ∈ shape, 0 < d) :
    calculate_stride shape 0 = .ok (suffixProds shape) := by
  cases shape with
  | nil => exact absurd rfl hne
  | cons s0 rest =>
    have h1 := calculate_total_ok (s0 :: rest) hne
    have h2 := strideLoop_suffix (s0 :: rest) hpos
    rw [List.prod_cons] at h2
    simp only [calculate_stride, h1, if_pos rfl]
    show Except.ok (strideLoop (s0 :: rest) (s0 * rest.prod)) = _
    rw [h2]

/-! Section: Helper lemmas about the integer-width conversions -/

theorem int_to_size_t_eq {i : Int} (h0 : 0 ≤ i) (h : i < (SIZE_T_MOD : Nat)) :
    int_to_size_t i = i.toNat := by
  rw [int_to_size_t, Int.emod_eq_of_lt h0 h]

theorem size_t_to_int_eq {n : Nat} (h : n < 2 ^ 31) : size_t_to_int n = (n : Int) := by
  have h1 : n % INT_MOD = n := Nat.mod_eq_of_lt (by norm_num [INT_MOD]; omega)
  rw [size_t_to_int, h1, if_pos h]

/-! Section: Characterization of construction -/

theorem init_eq {T : Type} [Inhabited T] (shape : List Int) (elems : List T)
    (hne : shape ≠ []) (hpos : ∀ d ∈ shape, 0 < d) (hb : shape.prod < 2 ^ 31) :
    Tensor.init shape elems =
      if elems.isEmpty then
        .ok ⟨shape, suffixProds shape, List.replicate shape.prod.toNat default,
          shape.prod.toNat⟩
      else if elems.length ≠ shape.prod.toNat then .error .shapeMismatch
      else .ok ⟨shape, suffixProds shape, elems, shape.prod.toNat⟩ := by
  have hp : (0 : Int) < shape.prod := List.prod_pos hpos
  have h1 := calculate_total_ok shape hne
  have h2 : int_to_size_t shape.prod = shape.prod.toNat := by
    apply int_to_size_t_eq hp.le
    have e : ((SIZE_T_MOD : Nat) : Int) = 2 ^ 64 := by norm_num [SIZE_T_MOD]
    have e2 : (2 : Int) ^ 31 < 2 ^ 64 := by norm_num
    rw [e]; linarith
  have h3 : size_t_to_int shape.prod.toNat = shape.prod := by
    have hlt : shape.prod.toNat < 2 ^ 31 := by
      have hb' : shape.prod < 2147483648 := by norm_num at hb ⊢; exact hb
      norm_num
      omega
    rw [size_t_to_int_eq hlt, Int.toNat_of_nonneg hp.le]
  have h4 := calculate_stride_prod hne hpos
  simp only [Tensor.init, h1, h2, h3, h4]

theorem init_ok {T : Type} [Inhabited T] {shape : List Int} {elems : List T}
    (hne : shape ≠ []) (hpos : ∀ d ∈ shape, 0 < d) (hb : shape.prod < 2 ^ 31)
    (hlen : elems.length = shape.prod.toNat) :
    Tensor.init shape elems = .ok ⟨shape, suffixProds shape, elems, shape.prod.toNat⟩ := by
  have hnil : elems.isEmpty = false := by
    have : 0 < shape.prod.toNat := by
      have := List.prod_pos hpos
      omega
    cases elems with
    | nil => simp at hlen; omega
    | cons x xs => rfl
  rw [init_eq shape elems hne hpos hb, hnil]
  simp [hlen]

theorem init_default {T : Type} [Inhabited T] {shape : List Int}
    (hne : shape ≠ []) (hpos : ∀ d ∈ shape, 0 < d) (hb : shape.prod < 2 ^ 31) :
    Tensor.init shape ([] : List T) =
      .ok ⟨shape, suffixProds shape, List.replicate shape.prod.toNat default,
        shape.prod.toNat⟩ := by
  rw [init_eq shape [] hne hpos hb]
  rfl

theorem init_ok_inv {T : Type} [Inhabited T] {shape : List Int} {elems : List T}
    {t : Tensor T} (hne : shape ≠ []) (hpos : ∀ d ∈ shape, 0 < d)
    (hb : shape.prod < 2 ^ 31) (h : Tensor.init shape elems = .ok t) :
    t.shape = shape ∧ t.stride = suffixProds shape ∧
      t.total_elements = shape.prod.toNat ∧ t.elements.length = shape.prod.toNat := by
  rw [init_eq shape elems hne hpos hb] at h
  split at h
  · cases h
    simp [List.length_replicate]
  · split at h
    · cases h
    · cases h
      rename_i hlen
      simp at hlen
      simp [hlen]

/-! Section: The row-major stride table and the flat index -/

theorem suffixProds_getLast : ∀ (l : List Int), l ≠ [] →
    (suffixProds l).getLast? = some 1
  | [_], _ => rfl
  | _ :: e :: rest, _ => by
    show (List.prod (e :: rest) :: List.prod rest :: suffixProds rest).getLast? = some 1
    rw [List.getLast?_cons_cons]
    exact suffixProds_getLast (e :: rest) (by simp)

theorem weighted_sum_max : ∀ (l : List Int), l ≠ [] → (∀ d ∈ l, 0 < d) →
    (List.zipWith (fun s k => (s - 1) * k) l (suffixProds l)).sum = l.prod - 1
  | [d], _, _ => by simp [suffixProds]
  | d :: e :: rest, _, hpos => by
    have ih := weighted_sum_max (e :: rest) (by simp)
      (fun x hx => hpos x (List.mem_cons_of_mem d hx))
    show ((d - 1) * List.prod (e :: rest)
        + (List.zipWith (fun s k => (s - 1) * k) (e :: rest)
            (suffixProds (e :: rest))).sum) = _
    rw [ih, List.prod_cons (l := e :: rest)]
    ring

theorem flatZip_bounds : ∀ {c shape : List Int},
    List.Forall₂ (fun p s => 0 ≤ p ∧ p < s) c shape → (∀ d ∈ shape, 0 < d) →
    0 ≤ flatZip c (suffixProds shape) ∧ flatZip c (suffixProds shape) < shape.prod
  | _, _, .nil, _ => by simp [flatZip, suffixProds]
  | p :: ps, d :: ss, .cons hp htail, hpos => by
    have hP : (0 : Int) < ss.prod :=
      List.prod_pos (fun x hx => hpos x (List.mem_cons_of_mem d hx))
    have ih := flatZip_bounds htail (fun x hx => hpos x (List.mem_cons_of_mem d hx))
    have heq : flatZip (p :: ps) (suffixProds (d :: ss))
        = p * ss.prod + flatZip ps (suffixProds ss) := by
      simp [flatZip, suffixProds]
    rw [heq, List.prod_cons]
    constructor
    · have := mul_nonneg hp.1 hP.le
      linarith [ih.1]
    · have h1 : p * ss.prod ≤ (d - 1) * ss.prod :=
        mul_le_mul_of_nonneg_right (by linarith [hp.2]) hP.le
      nlinarith [ih.2]

theorem flatZip_inj : ∀ (shape c c' : List Int),
    List.Forall₂ (fun p s => 0 ≤ p ∧ p < s) c shape →
    List.Forall₂ (fun p s => 0 ≤ p ∧ p < s) c' shape →
    (∀ d ∈ shape, 0 < d) →
    flatZip c (suffixProds shape) = flatZip c' (suffixProds shape) → c = c'
  | [], _, _, .nil, .nil, _, _ => rfl
  | _ :: _, [], _, h, _, _, _ => by cases h
  | _ :: _, _ :: _, [], _, h', _, _ => by cases h'
  | d :: ss, p :: ps, p' :: ps', hf, hf', hpos, heq => by
    rw [List.forall₂_cons] at hf hf'
    obtain ⟨hp, htail⟩ := hf
    obtain ⟨hp', htail'⟩ := hf'
    have hposs : ∀ x ∈ ss, 0 < x := fun x hx => hpos x (List.mem_cons_of_mem d hx)
    have hP : (0 : Int) < ss.prod := List.prod_pos hposs
    have hb := flatZip_bounds htail hposs
    have hb' := flatZip_bounds htail' hposs
    have heq' : p * ss.prod + flatZip ps (suffixProds ss)
        = p' * ss.prod + flatZip ps' (suffixProds ss) := by
      have e1 : flatZip (p :: ps) (suffixProds (d :: ss))
          = p * ss.prod + flatZip ps (suffixProds ss) := by simp [flatZip, suffixProds]
      have e2 : flatZip (p' :: ps') (suffixProds (d :: ss))
          = p' * ss.prod + flatZip ps' (suffixProds ss) := by simp [flatZip, suffixProds]
      rw [← e1, ← e2, heq]
    have hpp : p = p' := by
      by_contra hne
      rcases lt_or_gt_of_ne hne with hlt | hgt
      · have : (p + 1) * ss.prod ≤ p' * ss.prod :=
          mul_le_mul_of_nonneg_right (by omega) hP.le
        nlinarith [hb.1, hb.2, hb'.1, hb'.2]
      · have : (p' + 1) * ss.prod ≤ p * ss.prod :=
          mul_le_mul_of_nonneg_right (by omega) hP.le
        nlinarith [hb.1, hb.2, hb'.1, hb'.2]
    subst hpp
    have htails : flatZip ps (suffixProds ss) = flatZip ps' (suffixProds ss) := by
      linarith [heq']
    rw [flatZip_inj ss ps ps' htail htail' hposs htails]

/-! Section: Characterization of coordinate lookup -/

theorem atLoop_ok : ∀ (shape c : List Int) (flat0 : Nat),
    List.Forall₂ (fun p s => 0 ≤ p ∧ p < s) c shape → (∀ d ∈ shape, 0 < d) →
    flatZip c (suffixProds shape) < ((SIZE_T_MOD : Nat) : Int) →
    flat0 < SIZE_T_MOD →
    atLoop shape (suffixProds shape) c flat0
      = .ok ((flat0 + (flatZip c (suffixProds shape)).toNat) % SIZE_T_MOD)
  | [], c, flat0, h, _, _, hf => by
    cases h
    show Except.ok flat0 = _
    have e : flatZip [] (suffixProds []) = 0 := rfl
    rw [e]
    simp [Nat.mod_eq_of_lt hf]
  | d :: ss, c, flat0, h, hpos, hszb, hf => by
    cases c with
    | nil => cases h
    | cons p ps =>
      rw [List.forall₂_cons] at h
      obtain ⟨hp, htail⟩ := h
      have hposs : ∀ x ∈ ss, 0 < x := fun x hx => hpos x (List.mem_cons_of_mem d hx)
      have hP : (0 : Int) < ss.prod := List.prod_pos hposs
      have tb := flatZip_bounds htail hposs
      have e1 : flatZip (p :: ps) (suffixProds (d :: ss))
          = p * ss.prod + flatZip ps (suffixProds ss) := by simp [flatZip, suffixProds]
      have hterm0 : (0 : Int) ≤ p * ss.prod := mul_nonneg hp.1 hP.le
      have htermM : p * ss.prod < ((SIZE_T_MOD : Nat) : Int) := by
        rw [e1] at hszb
        linarith [tb.1]
      have htailM : flatZip ps (suffixProds ss) < ((SIZE_T_MOD : Nat) : Int) := by
        rw [e1] at hszb
        linarith
      have hcast : int_to_size_t (p * ss.prod) = (p * ss.prod).toNat :=
        int_to_size_t_eq hterm0 htermM
      have hMpos : 0 < SIZE_T_MOD := by norm_num [SIZE_T_MOD]
      have ih := atLoop_ok ss ps ((flat0 + int_to_size_t (p * ss.prod)) % SIZE_T_MOD)
        htail hposs htailM (Nat.mod_lt _ hMpos)
      show atLoop (d :: ss) (ss.prod :: suffixProds ss) (p :: ps) flat0 = _
      rw [atLoop, if_neg (not_le.mpr hp.2), ih, e1,
        Int.toNat_add hterm0 tb.1, hcast, Nat.mod_add_mod, Nat.add_assoc]

theorem at_char {T : Type} [Inhabited T] {shape : List Int} {elems : List T}
    {t : Tensor T} (hne : shape ≠ []) (hpos : ∀ d ∈ shape, 0 < d)
    (hb : shape.prod < 2 ^ 31) (hinit : Tensor.init shape elems = .ok t)
    {c : List Int} (hc : ValidCoord shape c) (pm : Char) :
    (t.at' c pm).1 = .ok (t.elements.get? (flatZip c (suffixProds shape)).toNat)
    ∧ (flatZip c (suffixProds shape)).toNat < t.elements.length := by
  obtain ⟨hsh, hst, htot, hlen⟩ := init_ok_inv hne hpos hb hinit
  have hclen : c.length = shape.length := hc.length_eq
  have hfb := flatZip_bounds hc hpos
  have hp : (0 : Int) < shape.prod := List.prod_pos hpos
  have hM : ((SIZE_T_MOD : Nat) : Int) = 2 ^ 64 := by norm_num [SIZE_T_MOD]
  have hszb : flatZip c (suffixProds shape) < ((SIZE_T_MOD : Nat) : Int) := by
    rw [hM]
    have h64 : (2 : Int) ^ 31 < 2 ^ 64 := by norm_num
    linarith [hfb.2, hb]
  have hloop := atLoop_ok shape c 0 hc hpos hszb (by norm_num [SIZE_T_MOD])
  have hsn : (flatZip c (suffixProds shape)).toNat < shape.prod.toNat := by
    omega
  have hlt : (flatZip c (suffixProds shape)).toNat < t.elements.length := by
    rw [hlen]; exact hsn
  have hmod : (0 + (flatZip c (suffixProds shape)).toNat) % SIZE_T_MOD
      = (flatZip c (suffixProds shape)).toNat := by
    rw [Nat.zero_add]
    apply Nat.mod_eq_of_lt
    have hbn : shape.prod.toNat < 2 ^ 31 := by omega
    have : (2 : Nat) ^ 31 < SIZE_T_MOD := by norm_num [SIZE_T_MOD]
    omega
  refine ⟨?_, hlt⟩
  obtain ⟨x, hx⟩ : ∃ x, t.elements.get? (flatZip c (suffixProds shape)).toNat = some x :=
    ⟨_, List.get?_eq_get hlt⟩
  rw [Tensor.at', if_neg (by rw [hsh, hclen]; exact fun h => h rfl), hsh, hst, hloop,
    hmod, hx]
  have hx' : t.elements[(flatZip c (suffixProds shape)).toNat]? = some x := by
    rw [← List.get?_eq_getElem?]
    exact hx
  simp [hx']

/-! Section: Row-major enumeration of all coordinates -/

theorem coordEnum_valid : ∀ {shape : List Int}, (∀ d ∈ shape, 0 < d) →
    ∀ {c : List Int}, c ∈ coordEnum shape → ValidCoord shape c
  | [], _, c, hc => by
    simp [coordEnum] at hc
    subst hc
    exact List.Forall₂.nil
  | d :: rest, hpos, c, hc => by
    simp only [coordEnum, List.mem_flatMap, List.mem_map, List.mem_range] at hc
    obtain ⟨i, hi, c', hc', rfl⟩ := hc
    have hd : (0 : Int) < d := hpos d (List.mem_cons_self d rest)
    have hiv : (i : Int) < d := by
      have : (i : Int) < (d.toNat : Int) := by exact_mod_cast hi
      rwa [Int.toNat_of_nonneg hd.le] at this
    exact List.Forall₂.cons ⟨Int.natCast_nonneg i, hiv⟩
      (coordEnum_valid (fun x hx => hpos x (List.mem_cons_of_mem d hx)) hc')

theorem range_mul_flatMap : ∀ (a b : Nat),
    (List.range a).flatMap (fun i => (List.range b).map (fun j => i * b + j))
      = List.range (a * b)
  | 0, _ => by simp
  | a + 1, b => by
    rw [List.range_succ, List.flatMap_append, range_mul_flatMap a b,
      List.flatMap_singleton, Nat.succ_mul, List.range_add]

theorem coordEnum_flats : ∀ {shape : List Int}, (∀ d ∈ shape, 0 < d) →
    (coordEnum shape).map (fun c => (flatZip c (suffixProds shape)).toNat)
      = List.range shape.prod.toNat
  | [], _ => by
    simp only [coordEnum, flatZip, suffixProds, List.prod_nil, Int.toNat_one,
      List.map_cons, List.map_nil, List.zipWith_nil_right, List.sum_nil, Int.toNat_zero]
    rfl
  | d :: rest, hpos => by
    have hposr : ∀ x ∈ rest, 0 < x := fun x hx => hpos x (List.mem_cons_of_mem d hx)
    have hd : (0 : Int) < d := hpos d (List.mem_cons_self d rest)
    have hP : (0 : Int) < rest.prod := List.prod_pos hposr
    have ih := coordEnum_flats hposr
    show ((List.range d.toNat).flatMap
        (fun i => (coordEnum rest).map (fun c => (i : Int) :: c))).map
          (fun c => (flatZip c (suffixProds (d :: rest))).toNat) = _
    rw [List.map_flatMap]
    have hblock : ∀ i ∈ List.range d.toNat,
        ((coordEnum rest).map (fun c => (i : Int) :: c)).map
          (fun c => (flatZip c (suffixProds (d :: rest))).toNat)
        = (List.range rest.prod.toNat).map (fun j => i * rest.prod.toNat + j) := by
      intro i _
      rw [List.map_map, ← ih, List.map_map]
      apply List.map_congr_left
      intro c hcmem
      have hcv := coordEnum_valid hposr hcmem
      have hcb := flatZip_bounds hcv hposr
      show (flatZip ((i : Int) :: c) (suffixProds (d :: rest))).toNat
          = i * rest.prod.toNat + (flatZip c (suffixProds rest)).toNat
      have e1 : flatZip ((i : Int) :: c) (suffixProds (d :: rest))
          = (i : Int) * rest.prod + flatZip c (suffixProds rest) := by
        simp [flatZip, suffixProds]
      rw [e1]
      have e2 : (i : Int) * rest.prod = ((i * rest.prod.toNat : Nat) : Int) := by
        push_cast
        rw [Int.toNat_of_nonneg hP.le]
      rw [e2, Int.toNat_add (by positivity) hcb.1, Int.toNat_natCast]
    rw [List.flatMap_congr hblock]
    rw [range_mul_flatMap, List.prod_cons]
    congr 1
    have : d * rest.prod = ((d.toNat * rest.prod.toNat : Nat) : Int) := by
      push_cast
      rw [Int.toNat_of_nonneg hd.le, Int.toNat_of_nonneg hP.le]
    rw [this, Int.toNat_natCast]

theorem map_get?_range : ∀ {α : Type} (l : List α),
    (List.range l.length).map l.get? = l.map some
  | _, [] => rfl
  | α, x :: xs => by
    rw [List.length_cons, List.range_succ_eq_map, List.map_cons, List.map_map]
    show (some x) :: _ = _
    rw [List.map_cons]
    congr 1
    have : (x :: xs).get? ∘ Nat.succ = xs.get? := by
      funext i
      rfl
    rw [this, map_get?_range xs]

/-! Section: Characterization of the elementwise transform -/

theorem ewa_char {T : Type} [Inhabited T] {shape : List Int} {elems : List T}
    {t : Tensor T} (hne : shape ≠ []) (hpos : ∀ d ∈ shape, 0 < d)
    (hb : shape.prod < 2 ^ 31) (hinit : Tensor.init shape elems = .ok t)
    (f : T → T) :
    t.element_wise_apply f
      = .ok ⟨shape, suffixProds shape, t.elements.map f, shape.prod.toNat⟩ := by
  obtain ⟨hsh, hst, htot, hlen⟩ := init_ok_inv hne hpos hb hinit
  rw [Tensor.element_wise_apply, hsh]
  apply init_ok hne hpos hb
  rw [List.length_map, hlen]

/-- Fact: `calculate_stride` never throws on a non-empty shape, whatever the `total`
argument (the empty-shape check is its only throw site). -/
theorem calculate_stride_any (shape : List Int) (hne : shape ≠ []) (total : Int) :
    ∃ st, calculate_stride shape total = .ok st := by
  cases shape with
  | nil => exact absurd rfl hne
  | cons s0 rest =>
    by_cases h : total = 0
    · subst h
      have h1 := calculate_total_ok (s0 :: rest) (by simp)
      refine ⟨strideLoop (s0 :: rest) (s0 :: rest).prod, ?_⟩
      simp only [calculate_stride, if_pos rfl, h1]
      rfl
    · exact ⟨strideLoop (s0 :: rest) total, calculate_stride_of_ne total (by simp) h⟩

/-! ## Claim theorems -/

/-- Claim C3: for every non-empty shape of positive integers, `calculate_total`
returns the mathematical product of the entries of the shape. -/
theorem calculate_total_eq_prod (shape : List Int) (hne : shape ≠ [])
    (hpos : ∀ d ∈ shape, 0 < d) : calculate_total shape = .ok shape.prod :=
  calculate_total_ok shape hne

/-- Witness for C3 at the spec's example shape `[2,3]` (total `6`). -/
theorem calculate_total_eq_prod_witness :
    calculate_total [2, 3] = .ok (List.prod [2, 3]) :=
  calculate_total_eq_prod [2, 3] (by decide) (by decide)

/-- Claim C2: for every non-empty shape `S` of positive integers, the stride
table returned by `calculate_stride` (with the total recomputed, i.e. the
defaulted `total = 0` path) is the suffix-product table; its last entry is `1`,
and the maximum valid coordinate maps to the last buffer slot:
`Σ_i (S[i]-1)*stride[i] = calculate_total S - 1`. -/
theorem calculate_stride_row_major (shape : List Int) (hne : shape ≠ [])
    (hpos : ∀ d ∈ shape, 0 < d) :
    calculate_stride shape 0 = .ok (suffixProds shape)
    ∧ (suffixProds shape).getLast? = some 1
    ∧ (List.zipWith (fun s k => (s - 1) * k) shape (suffixProds shape)).sum
        = shape.prod - 1
    ∧ calculate_total shape = .ok shape.prod :=
  ⟨calculate_stride_default hne hpos, suffixProds_getLast shape hne,
    weighted_sum_max shape hne hpos, calculate_total_ok shape hne⟩

/-- Witness for C2 at shape `[2,3]`: strides `[3,1]`, last stride `1`,
`(2-1)*3 + (3-1)*1 = 5 = 6 - 1`. -/
theorem calculate_stride_row_major_witness :
    calculate_stride [2, 3] 0 = .ok (suffixProds [2, 3])
    ∧ (suffixProds [2, 3]).getLast? = some 1
    ∧ (List.zipWith (fun s k => (s - 1) * k) [2, 3] (suffixProds [2, 3])).sum
        = List.prod [2, 3] - 1
    ∧ calculate_total [2, 3] = .ok (List.prod [2, 3]) :=
  calculate_stride_row_major [2, 3] (by decide) (by decide)

/-- Claim C9: for every non-empty shape of positive integers, calling
`calculate_stride` with the precomputed total (the value `calculate_total`
returns) gives the same stride table as the defaulted `total = 0` path that
recomputes the total internally. -/
theorem calculate_stride_total_equiv (shape : List Int) (tot : Int)
    (hne : shape ≠ []) (hpos : ∀ d ∈ shape, 0 < d)
    (htot : calculate_total shape = .ok tot) :
    calculate_stride shape tot = calculate_stride shape 0 := by
  have h1 := calculate_total_ok shape hne
  rw [htot] at h1
  have h2 : tot = shape.prod := Except.ok.inj h1
  subst h2
  rw [calculate_stride_prod hne hpos, calculate_stride_default hne hpos]

/-- Witness for C9 at shape `[2,3]` with precomputed total `6`. -/
theorem calculate_stride_total_equiv_witness :
    calculate_stride [2, 3] 6 = calculate_stride [2, 3] 0 :=
  calculate_stride_total_equiv [2, 3] 6 (by decide) (by decide) rfl

/-- Claim C4 is false on the code: the source validates only emptiness of the
shape, never positivity of its entries.  Counterexample: the shape `[-1,-1]`
contains only non-positive dimensions, yet construction with a matching
1-element buffer succeeds (the two `-1`s multiply to a total of `1`) instead of
failing with `InvalidShape`. -/
theorem nonpositive_shape_accepted :
    Tensor.init [-1, -1] ([42] : List Int) = .ok ⟨[-1, -1], [-1, 1], [42], 1⟩ := by
  rfl

/-- Claim C4 amended: construction performs no positivity check on dimension
sizes; `InvalidShape` is raised exactly for the empty shape.  (The hypothesis
`d ≠ 0` keeps every division in stride computation defined — a `0` entry makes
the C++ divide by zero, which is undefined behaviour, not `InvalidShape`.) -/
theorem invalidShape_iff_empty_shape {T : Type} [Inhabited T] (shape : List Int)
    (elems : List T) (h0 : ∀ d ∈ shape, d ≠ 0) :
    Tensor.init shape elems = .error .invalidShape ↔ shape = [] := by
  constructor
  · intro h
    by_contra hne
    obtain ⟨s0, rest, rfl⟩ := List.exists_cons_of_ne_nil hne
    have h1 := calculate_total_ok (s0 :: rest) (by simp)
    obtain ⟨st, hst⟩ := calculate_stride_any (s0 :: rest) (by simp)
      (size_t_to_int (int_to_size_t (s0 :: rest).prod))
    simp only [Tensor.init, h1, hst] at h
    split at h
    · cases h
    · split at h
      · simp at h
      · cases h
  · intro h
    subst h
    rfl

/-- Witness for the amended C4 at the counterexample input `[-1,-1]`. -/
theorem invalidShape_iff_empty_shape_witness :
    (Tensor.init [-1, -1] ([42] : List Int) = .error .invalidShape
      ↔ ([-1, -1] : List Int) = []) :=
  invalidShape_iff_empty_shape [-1, -1] [42] (by decide)

/-- Concrete tensor of the spec's running example: shape `[2,3]`, row-major
buffer `[0,1,2,3,4,5]`. -/
def t_c5 : Tensor Int := ⟨[2, 3], [3, 1], [0, 1, 2, 3, 4, 5], 6⟩

/-- Claim C5 (`at` rejects coordinates outside `0 ≤ position[i] < shape[i]`,
in particular negative components) is contradicted by the code on the negative
side: the loop checks only `position[i] >= shape[i]`, so the coordinate
`[1,-1]` of the `[2,3]` tensor passes validation; the `int` product `-1 * 1` is
converted to `size_t` and wraps, giving flat index
`(3 + (2^64 - 1)) mod 2^64 = 2`, and `at` silently returns element `2` instead
of failing with `IndexOutOfRange`. -/
theorem at_negative_coordinate_eval :
    Tensor.init [2, 3] ([0, 1, 2, 3, 4, 5] : List Int) = .ok t_c5
    ∧ (t_c5.at' [1, -1] 'N').1 = .ok (some 2) := by
  constructor
  · rfl
  · rfl

/-- Claim C6: construction with an empty shape fails with `InvalidShape`;
construction with a non-empty buffer whose length differs from the product of
a (valid) shape fails with `ShapeMismatch`; construction with an omitted/empty
buffer succeeds with `total_elements` default-valued entries. -/
theorem init_error_cases {T : Type} [Inhabited T] (shape : List Int)
    (elems : List T) (hne : shape ≠ []) (hpos : ∀ d ∈ shape, 0 < d)
    (hb : shape.prod < 2 ^ 31) :
    (∀ es : List T, Tensor.init ([] : List Int) es = .error .invalidShape)
    ∧ (elems ≠ [] → (elems.length : Int) ≠ shape.prod →
        Tensor.init shape elems = .error .shapeMismatch)
    ∧ Tensor.init shape ([] : List T)
        = .ok ⟨shape, suffixProds shape, List.replicate shape.prod.toNat default,
            shape.prod.toNat⟩ := by
  have hp : (0 : Int) < shape.prod := List.prod_pos hpos
  refine ⟨fun es => rfl, ?_, init_default hne hpos hb⟩
  intro hnil hmis
  have hmisN : elems.length ≠ shape.prod.toNat := by omega
  have hempty : elems.isEmpty = false := by
    cases elems with
    | nil => exact absurd rfl hnil
    | cons x xs => rfl
  rw [init_eq shape elems hne hpos hb, hempty]
  simp [hmisN]

/-- Witness for C6: empty shape is `InvalidShape`; the spec's example — shape
`[2,3]` with a 5-element buffer — is `ShapeMismatch`; shape `[2,3]` with the
buffer omitted gives six default-valued entries. -/
theorem init_error_cases_witness :
    Tensor.init ([] : List Int) ([] : List Int) = .error .invalidShape
    ∧ Tensor.init [2, 3] ([7, 7, 7, 7, 7] : List Int) = .error .shapeMismatch
    ∧ Tensor.init [2, 3] ([] : List Int)
        = .ok ⟨[2, 3], suffixProds [2, 3],
            List.replicate (List.prod [2, 3] : Int).toNat default,
            (List.prod [2, 3] : Int).toNat⟩ :=
  have h := init_error_cases [2, 3] ([7, 7, 7, 7, 7] : List Int)
    (by decide) (by decide) (by decide)
  ⟨h.1 [], h.2.1 (by decide) (by decide), h.2.2⟩

/-- Claim C1: for a Tensor built from a non-empty positive shape and an
explicit buffer of matching length, reading every valid coordinate via `at`,
enumerated in row-major order, reproduces the original buffer; moreover every
valid coordinate's flat index `Σ c[i]*stride[i]` lies in `[0, total_elements)`
and distinct valid coordinates have distinct flat indices. -/
theorem at_round_trip {T : Type} [Inhabited T] (shape : List Int) (elems : List T)
    (t : Tensor T) (hne : shape ≠ []) (hpos : ∀ d ∈ shape, 0 < d)
    (hb : shape.prod < 2 ^ 31) (hlen : (elems.length : Int) = shape.prod)
    (hinit : Tensor.init shape elems = .ok t) :
    ((coordEnum shape).map (fun c => (t.at' c 'N').1)
        = elems.map (fun e => (Except.ok (some e) : Except TensorError (Option T))))
    ∧ (∀ c, ValidCoord shape c →
        0 ≤ flatZip c t.stride ∧ flatZip c t.stride < (t.total_elements : Int)
        ∧ (t.at' c 'N').1 = .ok (elems.get? (flatZip c t.stride).toNat))
    ∧ (∀ c c', ValidCoord shape c → ValidCoord shape c' →
        flatZip c t.stride = flatZip c' t.stride → c = c') := by
  have hp : (0 : Int) < shape.prod := List.prod_pos hpos
  have hlenN : elems.length = shape.prod.toNat := by omega
  have hteq : t = ⟨shape, suffixProds shape, elems, shape.prod.toNat⟩ :=
    Except.ok.inj (hinit.symm.trans (init_ok hne hpos hb hlenN))
  have hst : t.stride = suffixProds shape := by rw [hteq]
  have htot : (t.total_elements : Int) = shape.prod := by
    rw [hteq]
    exact Int.toNat_of_nonneg hp.le
  have helems : t.elements = elems := by rw [hteq]
  refine ⟨?_, ?_, ?_⟩
  · have hpt : ∀ c ∈ coordEnum shape,
        (t.at' c 'N').1 = (Except.ok (elems.get? (flatZip c (suffixProds shape)).toNat)
          : Except TensorError (Option T)) := by
      intro c hcmem
      have h := (at_char hne hpos hb hinit (coordEnum_valid hpos hcmem) 'N').1
      rwa [helems] at h
    rw [List.map_congr_left hpt]
    have e1 : (fun c => (Except.ok (elems.get? (flatZip c (suffixProds shape)).toNat)
          : Except TensorError (Option T)))
        = (fun n => (Except.ok (elems.get? n) : Except TensorError (Option T)))
          ∘ (fun c => (flatZip c (suffixProds shape)).toNat) := rfl
    rw [e1, ← List.map_map, coordEnum_flats hpos, ← hlenN]
    have e2 : (fun n => (Except.ok (elems.get? n) : Except TensorError (Option T)))
        = (fun o => (Except.ok o : Except TensorError (Option T))) ∘ elems.get? := rfl
    rw [e2, ← List.map_map, map_get?_range, List.map_map]
    rfl
  · intro c hc
    have hb2 := flatZip_bounds hc hpos
    have h := (at_char hne hpos hb hinit hc 'N').1
    rw [helems] at h
    rw [hst, htot]
    exact ⟨hb2.1, hb2.2, h⟩
  · intro c c' hc hc' he
    rw [hst] at he
    exact flatZip_inj shape c c' hc hc' hpos he

/-- Concrete tensor for the C1 witness: shape `[2,3]`, buffer `[10..60]`. -/
def t_c1 : Tensor Int := ⟨[2, 3], [3, 1], [10, 20, 30, 40, 50, 60], 6⟩

/-- Witness for C1: the row-major read-back of the `[2,3]` tensor with buffer
`[10,20,30,40,50,60]` reproduces that buffer. -/
theorem at_round_trip_witness :
    (coordEnum [2, 3]).map (fun c => (t_c1.at' c 'N').1)
      = ([10, 20, 30, 40, 50, 60] : List Int).map
          (fun e => (Except.ok (some e) : Except TensorError (Option Int))) :=
  (at_round_trip [2, 3] [10, 20, 30, 40, 50, 60] t_c1 (by decide) (by decide)
    (by decide) (by decide) rfl).1

/-- Claim C7: `element_wise_apply f` on a validly constructed tensor returns a
new tensor with the same shape (and strides and size) whose buffer is `f`
mapped over the original buffer in row-major buffer order, and
`element_wise_apply id` returns a tensor equal to the original.  (The original
tensor is unmodified by construction: the embedding is purely functional and
the C++ method is `const`, returning a fresh value.) -/
theorem element_wise_apply_spec {T : Type} [Inhabited T] (shape : List Int)
    (elems : List T) (t : Tensor T) (f : T → T) (hne : shape ≠ [])
    (hpos : ∀ d ∈ shape, 0 < d) (hb : shape.prod < 2 ^ 31)
    (hinit : Tensor.init shape elems = .ok t) :
    t.element_wise_apply f
      = .ok ⟨t.shape, t.stride, t.elements.map f, t.total_elements⟩
    ∧ t.element_wise_apply id = .ok t := by
  obtain ⟨hsh, hst, htot, hlen⟩ := init_ok_inv hne hpos hb hinit
  constructor
  · rw [ewa_char hne hpos hb hinit f, hsh, hst, htot]
  · rw [ewa_char hne hpos hb hinit id, List.map_id]
    congr 1
    cases t
    simp at hsh hst htot hlen
    simp [hsh, hst, htot]

/-- Witness for C7 on the `[2,3]` example tensor with `f = (· + 1)`. -/
theorem element_wise_apply_spec_witness :
    t_c5.element_wise_apply (fun x => x + 1)
      = .ok ⟨t_c5.shape, t_c5.stride, t_c5.elements.map (fun x => x + 1),
          t_c5.total_elements⟩
    ∧ t_c5.element_wise_apply id = .ok t_c5 :=
  element_wise_apply_spec [2, 3] [0, 1, 2, 3, 4, 5] t_c5 (fun x => x + 1)
    (by decide) (by decide) (by decide) rfl

/-- Claim C8: every successfully constructed tensor satisfies the invariants
`len(stride) = len(shape)`, `total_elements = product(shape)` and
`total_elements = len(elements)`, and `element_wise_apply` (the only operation
producing a tensor) preserves them. -/
theorem tensor_invariants {T : Type} [Inhabited T] (shape : List Int)
    (elems : List T) (t : Tensor T) (hne : shape ≠ [])
    (hpos : ∀ d ∈ shape, 0 < d) (hb : shape.prod < 2 ^ 31)
    (hinit : Tensor.init shape elems = .ok t) :
    (t.stride.length = t.shape.length
      ∧ (t.total_elements : Int) = t.shape.prod
      ∧ t.elements.length = t.total_elements)
    ∧ ∀ (f : T → T) (t' : Tensor T), t.element_wise_apply f = .ok t' →
        t'.stride.length = t'.shape.length
        ∧ (t'.total_elements : Int) = t'.shape.prod
        ∧ t'.elements.length = t'.total_elements := by
  have hp : (0 : Int) < shape.prod := List.prod_pos hpos
  obtain ⟨hsh, hst, htot, hlen⟩ := init_ok_inv hne hpos hb hinit
  refine ⟨⟨?_, ?_, ?_⟩, ?_⟩
  · rw [hsh, hst, suffixProds_length]
  · rw [hsh, htot]
    exact Int.toNat_of_nonneg hp.le
  · rw [hlen, htot]
  · intro f t' h
    rw [Tensor.element_wise_apply, hsh] at h
    obtain ⟨hsh', hst', htot', hlen'⟩ := init_ok_inv hne hpos hb h
    refine ⟨?_, ?_, ?_⟩
    · rw [hsh', hst', suffixProds_length]
    · rw [hsh', htot']
      exact Int.toNat_of_nonneg hp.le
    · rw [hlen', htot']

/-- Witness for C8 on the `[2,3]` example tensor, with the preservation part
instantiated at `f = id` (where `element_wise_apply` returns the tensor
itself). -/
theorem tensor_invariants_witness :
    (t_c5.stride.length = t_c5.shape.length
      ∧ (t_c5.total_elements : Int) = t_c5.shape.prod
      ∧ t_c5.elements.length = t_c5.total_elements)
    ∧ (t_c5.stride.length = t_c5.shape.length
      ∧ (t_c5.total_elements : Int) = t_c5.shape.prod
      ∧ t_c5.elements.length = t_c5.total_elements) :=
  have h := tensor_invariants [2, 3] [0, 1, 2, 3, 4, 5] t_c5
    (by decide) (by decide) (by decide) rfl
  ⟨h.1, h.2 id t_c5 (by rfl)⟩

/-- Claim C10: for a validly constructed tensor and a valid coordinate, the
value `at` returns does not depend on `print_mode`: the `'Y'` and `'N'` calls
return the same (successfully found) element; the flag only controls the
diagnostic output channel. -/
theorem at_print_mode_independent {T : Type} [Inhabited T] (shape : List Int)
    (elems : List T) (t : Tensor T) (c : List Int) (hne : shape ≠ [])
    (hpos : ∀ d ∈ shape, 0 < d) (hb : shape.prod < 2 ^ 31)
    (hinit : Tensor.init shape elems = .ok t) (hc : ValidCoord shape c) :
    (t.at' c 'Y').1 = (t.at' c 'N').1
    ∧ (t.at' c 'Y').1
        = .ok (t.elements.get? (flatZip c (suffixProds shape)).toNat)
    ∧ (t.elements.get? (flatZip c (suffixProds shape)).toNat).isSome = true := by
  have hY := at_char hne hpos hb hinit hc 'Y'
  have hN := at_char hne hpos hb hinit hc 'N'
  refine ⟨hY.1.trans hN.1.symm, hY.1, ?_⟩
  rw [List.get?_eq_get hY.2]
  rfl

/-- Witness for C10 on the `[2,3]` example tensor at coordinate `[1,2]`. -/
theorem at_print_mode_independent_witness :
    (t_c5.at' [1, 2] 'Y').1 = (t_c5.at' [1, 2] 'N').1
    ∧ (t_c5.at' [1, 2] 'Y').1
        = .ok (t_c5.elements.get? (flatZip [1, 2] (suffixProds [2, 3])).toNat)
    ∧ (t_c5.elements.get? (flatZip [1, 2] (suffixProds [2, 3])).toNat).isSome
        = true :=
  at_print_mode_independent [2, 3] [0, 1, 2, 3, 4, 5] t_c5 [1, 2]
    (by decide) (by decide) (by decide) rfl
    (by norm_num [ValidCoord, List.forall₂_cons])

end tensor_lib
